import Mathlib

/-!
# Verification of the tic-tac-toe board engine

A shallow embedding of the `Board` core from `src/main.rs` of
`rc-tic-tac-toe`: a rectangular grid of optional pieces with a placement
operation and win/draw queries.

Rust panics (failed `assert!` calls and out-of-bounds `Vec` indexing) are
modelled by `Option`: a function returns `none` exactly when the Rust
original panics, and `some v` when it returns `v` normally.  The `for`
loops of the source are modelled as structural recursion over
`List.range n`, which enumerates the loop indices `0, 1, ..., n-1` in
order, so early `return` and the position of a panic inside a loop are
preserved.
-/

/-- The two piece markers (`enum Piece { X, O }`). -/
inductive Piece where
  | X : Piece
  | O : Piece
deriving DecidableEq, Repr

/-- The board: `struct Board { height, width, pieces: Vec<Vec<Option<Piece>>> }`. -/
structure Board where
  height : Nat
  width : Nat
  pieces : List (List (Option Piece))
deriving DecidableEq, Repr

/-- Reading `pieces[r][c]` in Rust: `none` models the index-out-of-bounds
panic, `some v` the cell value (`v : Option Piece`, `none` = empty cell). -/
def get2 (g : List (List (Option Piece))) (r c : Nat) : Option (Option Piece) :=
  match g.get? r with
  | none => none
  | some row => row.get? c

/-- Writing `pieces[r][c] = v` in Rust.  (`place` only writes to an index it
has just successfully read, so the in-bounds `List.set` semantics coincide
with the source.) -/
def set2 (g : List (List (Option Piece))) (r c : Nat) (v : Option Piece) :
    List (List (Option Piece)) :=
  g.set r ((g.getD r []).set c v)

/-- `Board::new(height, width)`: the loops push `height` rows of `width`
empty cells. -/
def Board.new (height width : Nat) : Board :=
  { height := height, width := width
    pieces := List.replicate height (List.replicate width none) }

/-- `Board::place(row, col, t)`.  The two `assert!` calls and a (never
reachable on well-formed boards) out-of-bounds read are panics (`none`);
otherwise the result is the updated board paired with the returned `bool`. -/
def Board.place (b : Board) (row col : Nat) (t : Piece) : Option (Board × Bool) :=
  if row < b.height then
    if col < b.width then
      match get2 b.pieces row col with
      | none => none
      | some (some _) => some (b, false)
      | some none =>
          some ({ b with pieces := set2 b.pieces row col (some t) }, true)
    else none
  else none

/-- A loop `for i in idxs { let v = f(i); if v.is_none() || v.unwrap() != p
{ return false } }; true`, with `none` propagating a panic inside `f`. -/
def checkLineIdx (f : Nat → Option (Option Piece)) (p : Piece) :
    List Nat → Option Bool
  | [] => some true
  | i :: rest =>
    match f i with
    | none => none
    | some v => if v = some p then checkLineIdx f p rest else some false

/-- `Board::check_win_row(row, p)`: `for c in 0..self.width`. -/
def Board.check_win_row (b : Board) (row : Nat) (p : Piece) : Option Bool :=
  checkLineIdx (fun c => get2 b.pieces row c) p (List.range b.width)

/-- `Board::check_win_col(col, p)`: `for r in 0..self.height`. -/
def Board.check_win_col (b : Board) (col : Nat) (p : Piece) : Option Bool :=
  checkLineIdx (fun r => get2 b.pieces r col) p (List.range b.height)

/-- `Board::check_win_diag_left(p)`: asserts `height == width` then walks
`pieces[i][i]` for `i in 0..height`. -/
def Board.check_win_diag_left (b : Board) (p : Piece) : Option Bool :=
  if b.height = b.width then
    checkLineIdx (fun i => get2 b.pieces i i) p (List.range b.height)
  else none

/-- `Board::check_win_diag_right(p)`: asserts `height == width` then walks
`pieces[height - i - 1][i]` for `i in 0..height`. -/
def Board.check_win_diag_right (b : Board) (p : Piece) : Option Bool :=
  if b.height = b.width then
    checkLineIdx (fun i => get2 b.pieces (b.height - i - 1) i) p
      (List.range b.height)
  else none

/-- A loop `for i in idxs { if f(i) { return true } }; false`, with `none`
propagating a panic inside `f`. -/
def anyIdx (f : Nat → Option Bool) : List Nat → Option Bool
  | [] => some false
  | i :: rest =>
    match f i with
    | none => none
    | some true => some true
    | some false => anyIdx f rest

/-- `Board::check_win_condition(p)`: rows for `i in 0..self.height`, then
columns for `j in 0..self.height` (the source iterates the column loop over
`height`, not `width`), then the two diagonals with short-circuit `||`. -/
def Board.check_win_condition (b : Board) (p : Piece) : Option Bool :=
  match anyIdx (fun i => b.check_win_row i p) (List.range b.height) with
  | none => none
  | some true => some true
  | some false =>
    match anyIdx (fun j => b.check_win_col j p) (List.range b.height) with
    | none => none
    | some true => some true
    | some false =>
      match b.check_win_diag_left p with
      | none => none
      | some true => some true
      | some false => b.check_win_diag_right p

/-- A loop `for i in idxs { if !f(i) { return false } }; true`, with `none`
propagating a panic inside `f`. -/
def allIdx (f : Nat → Option Bool) : List Nat → Option Bool
  | [] => some true
  | i :: rest =>
    match f i with
    | none => none
    | some false => some false
    | some true => allIdx f rest

/-- `Board::is_full()`: nested loops over `0..height` and `0..width`,
returning `false` at the first empty cell. -/
def Board.is_full (b : Board) : Option Bool :=
  allIdx
    (fun i =>
      allIdx (fun j => (get2 b.pieces i j).map Option.isSome)
        (List.range b.width))
    (List.range b.height)

/-- Total accessor for the cell at `(r, c)`, used to state specifications
(defaults to an empty cell out of range). -/
def Board.cellD (b : Board) (r c : Nat) : Option Piece :=
  (b.pieces.getD r []).getD c none

/-- Well-formedness: the grid really is `height` rows of `width` cells.
Every board built by `Board::new` and mutated only through `place`
satisfies it. -/
def Board.WF (b : Board) : Prop :=
  b.pieces.length = b.height ∧ ∀ row ∈ b.pieces, row.length = b.width

instance (b : Board) : Decidable b.WF := by
  unfold Board.WF; infer_instance

/-- Boards reachable through the public operations: a fresh `Board::new`
followed by any sequence of non-panicking `place` calls (the queries
`check_win_condition` and `is_full` take the board immutably and cannot
change it). -/
inductive Board.Reachable : Board → Prop where
  | new (h w : Nat) : Board.Reachable (Board.new h w)
  | place (b b' : Board) (row col : Nat) (p : Piece) (res : Bool) :
      Board.Reachable b → b.place row col p = some (b', res) →
      Board.Reachable b'

/-- Zero or more non-panicking `place` calls leading from one board to
another. -/
inductive Board.Steps : Board → Board → Prop where
  | refl (b : Board) : Board.Steps b b
  | place (b b' b'' : Board) (row col : Nat) (p : Piece) (res : Bool) :
      b.place row col p = some (b', res) → Board.Steps b' b'' →
      Board.Steps b b''

/-- Specification-side winning-line predicate, written from the spec text:
some full row, some full column, the main diagonal, or the anti-diagonal
consists entirely of cells holding `p`. -/
def Board.spec_hasWinLine (b : Board) (p : Piece) : Prop :=
  (∃ r, r < b.height ∧ ∀ c, c < b.width → b.cellD r c = some p) ∨
  (∃ c, c < b.width ∧ ∀ r, r < b.height → b.cellD r c = some p) ∨
  (∀ i, i < b.height → b.cellD i i = some p) ∨
  (∀ i, i < b.height → b.cellD (b.height - i - 1) i = some p)

instance (b : Board) (p : Piece) : Decidable (b.spec_hasWinLine p) := by
  unfold Board.spec_hasWinLine; infer_instance

/-! ## Basic list helper lemmas -/

theorem getD_eq_get? {α : Type} (l : List α) (n : Nat) (d : α) :
    l.getD n d = (l.get? n).getD d := by
  induction l generalizing n with
  | nil => cases n <;> rfl
  | cons a t ih => cases n with
    | zero => rfl
    | succ m => exact ih m

theorem set_getD_eq {α : Type} (l : List α) (i : Nat) (v d : α)
    (h : i < l.length) : (l.set i v).getD i d = v := by
  induction l generalizing i with
  | nil => simp at h
  | cons a t ih => cases i with
    | zero => rfl
    | succ m => simpa using ih m (by simpa using h)

theorem set_getD_ne {α : Type} (l : List α) (i j : Nat) (v d : α)
    (h : i ≠ j) : (l.set i v).getD j d = l.getD j d := by
  induction l generalizing i j with
  | nil => rfl
  | cons a t ih => cases i with
    | zero => cases j with
      | zero => exact absurd rfl h
      | succ m => rfl
    | succ m => cases j with
      | zero => rfl
      | succ k => simpa using ih m k (by omega)

theorem get?_eq_some_getD {α : Type} (l : List α) (n : Nat) (d : α)
    (h : n < l.length) : l.get? n = some (l.getD n d) := by
  induction l generalizing n with
  | nil => simp at h
  | cons a t ih => cases n with
    | zero => rfl
    | succ m => simpa using ih m (by simpa using h)

theorem get?_mem_of_some {α : Type} {l : List α} {n : Nat} {a : α}
    (h : l.get? n = some a) : a ∈ l := by
  induction l generalizing n with
  | nil => simp [List.get?] at h
  | cons b t ih => cases n with
    | zero =>
        simp only [List.get?, Option.some.injEq] at h
        exact h ▸ List.mem_cons_self b t
    | succ m => exact List.mem_cons_of_mem b (ih h)

/-! ## Cell access lemmas -/

theorem get?_eq_some_iff {α : Type} (l : List α) (n : Nat) (a d : α) :
    l.get? n = some a ↔ n < l.length ∧ l.getD n d = a := by
  constructor
  · intro h
    have hn : n < l.length := by
      by_contra hge
      rw [List.get?_eq_none.mpr (by omega)] at h
      exact Option.noConfusion h
    rw [get?_eq_some_getD l n d hn] at h
    exact ⟨hn, Option.some.inj h⟩
  · rintro ⟨hn, hd⟩
    rw [get?_eq_some_getD l n d hn, hd]

theorem getD_nil {α : Type} (n : Nat) (d : α) : ([] : List α).getD n d = d := by
  rw [getD_eq_get?]
  cases n <;> rfl

theorem get2_eq_bind (g : List (List (Option Piece))) (r c : Nat) :
    get2 g r c = (g.get? r).bind fun row => row.get? c := by
  unfold get2
  cases g.get? r <;> rfl

theorem get2_eq_some_some_iff (g : List (List (Option Piece))) (r c : Nat)
    (p : Piece) :
    get2 g r c = some (some p) ↔ (g.getD r []).getD c none = some p := by
  rw [get2_eq_bind]
  simp only [Option.bind_eq_some]
  constructor
  · rintro ⟨row, hrow, hc⟩
    have h1 := (get?_eq_some_iff g r row []).mp hrow
    have h2 := (get?_eq_some_iff row c (some p) none).mp hc
    rw [← h1.2] at h2
    exact h2.2
  · intro h
    have hr : r < g.length := by
      by_contra hge
      have hnil : g.getD r [] = [] := by
        rw [getD_eq_get?, List.get?_eq_none.mpr (by omega)]
        rfl
      rw [hnil, getD_nil] at h
      exact Option.noConfusion h
    have hc : c < (g.getD r []).length := by
      by_contra hge
      rw [getD_eq_get?, List.get?_eq_none.mpr (by omega)] at h
      exact Option.noConfusion h
    exact ⟨g.getD r [], (get?_eq_some_iff g r _ []).mpr ⟨hr, rfl⟩,
      (get?_eq_some_iff _ c _ none).mpr ⟨hc, h⟩⟩

theorem get2_eq_some_cellD (b : Board) (hwf : b.WF) {r c : Nat}
    (hr : r < b.height) (hc : c < b.width) :
    get2 b.pieces r c = some (b.cellD r c) := by
  obtain ⟨hlen, hrows⟩ := hwf
  have hrl : r < b.pieces.length := by omega
  have hmem : b.pieces.getD r [] ∈ b.pieces :=
    get?_mem_of_some (get?_eq_some_getD b.pieces r [] hrl)
  have hwid : (b.pieces.getD r []).length = b.width := hrows _ hmem
  rw [get2_eq_bind, get?_eq_some_getD b.pieces r [] hrl]
  exact get?_eq_some_getD _ c none (by omega)

theorem get2_isSome (b : Board) (hwf : b.WF) {r c : Nat}
    (hr : r < b.height) (hc : c < b.width) :
    (get2 b.pieces r c).isSome = true := by
  rw [get2_eq_some_cellD b hwf hr hc]; rfl

/-! ## Loop lemmas -/

theorem checkLineIdx_eq_some_true_iff (f : Nat → Option (Option Piece))
    (p : Piece) (l : List Nat) :
    checkLineIdx f p l = some true ↔ ∀ i ∈ l, f i = some (some p) := by
  induction l with
  | nil => simp [checkLineIdx]
  | cons i rest ih =>
      simp only [checkLineIdx]
      cases hf : f i with
      | none => simp [hf]
      | some v =>
          by_cases hv : v = some p
          · subst hv
            simp [ih, hf]
          · simp only [hf, if_neg hv]
            constructor
            · intro h
              exact absurd (Option.some.inj h) (by simp)
            · intro h
              exact absurd (h i (List.mem_cons_self i rest))
                (by rw [hf]; intro hx; exact hv (Option.some.inj hx))

theorem checkLineIdx_isSome (f : Nat → Option (Option Piece)) (p : Piece)
    (l : List Nat) (hf : ∀ i ∈ l, (f i).isSome = true) :
    (checkLineIdx f p l).isSome = true := by
  induction l with
  | nil => rfl
  | cons i rest ih =>
      simp only [checkLineIdx]
      cases hfi : f i with
      | none =>
          have hcontra := hf i (List.mem_cons_self i rest)
          rw [hfi] at hcontra
          simp at hcontra
      | some v =>
          by_cases hv : v = some p
          · simpa [hv] using ih fun j hj => hf j (List.mem_cons_of_mem i hj)
          · simp [hv]

theorem anyIdx_eq_some_true_iff (f : Nat → Option Bool) (l : List Nat)
    (hf : ∀ i ∈ l, (f i).isSome = true) :
    anyIdx f l = some true ↔ ∃ i ∈ l, f i = some true := by
  induction l with
  | nil => simp [anyIdx]
  | cons i rest ih =>
      simp only [anyIdx]
      cases hfi : f i with
      | none =>
          have hcontra := hf i (List.mem_cons_self i rest)
          rw [hfi] at hcontra
          simp at hcontra
      | some v =>
          cases v with
          | true => simp [hfi]
          | false =>
              rw [ih fun j hj => hf j (List.mem_cons_of_mem i hj)]
              constructor
              · rintro ⟨j, hj, hfj⟩
                exact ⟨j, List.mem_cons_of_mem i hj, hfj⟩
              · rintro ⟨j, hj, hfj⟩
                rcases List.mem_cons.mp hj with h | h
                · subst h
                  rw [hfi] at hfj
                  exact absurd (Option.some.inj hfj) (by simp)
                · exact ⟨j, h, hfj⟩

theorem anyIdx_isSome (f : Nat → Option Bool) (l : List Nat)
    (hf : ∀ i ∈ l, (f i).isSome = true) : (anyIdx f l).isSome = true := by
  induction l with
  | nil => rfl
  | cons i rest ih =>
      simp only [anyIdx]
      cases hfi : f i with
      | none =>
          have hcontra := hf i (List.mem_cons_self i rest)
          rw [hfi] at hcontra
          simp at hcontra
      | some v =>
          cases v with
          | true => rfl
          | false => exact ih fun j hj => hf j (List.mem_cons_of_mem i hj)

theorem allIdx_eq_some_true_iff (f : Nat → Option Bool) (l : List Nat) :
    allIdx f l = some true ↔ ∀ i ∈ l, f i = some true := by
  induction l with
  | nil => simp [allIdx]
  | cons i rest ih =>
      simp only [allIdx]
      cases hfi : f i with
      | none => simp [hfi]
      | some v =>
          cases v with
          | true => simp [hfi, ih]
          | false =>
              constructor
              · intro h
                exact absurd (Option.some.inj h) (by simp)
              · intro h
                exact absurd (h i (List.mem_cons_self i rest)) (by simp [hfi])

theorem allIdx_isSome (f : Nat → Option Bool) (l : List Nat)
    (hf : ∀ i ∈ l, (f i).isSome = true) : (allIdx f l).isSome = true := by
  induction l with
  | nil => rfl
  | cons i rest ih =>
      simp only [allIdx]
      cases hfi : f i with
      | none =>
          have hcontra := hf i (List.mem_cons_self i rest)
          rw [hfi] at hcontra
          simp at hcontra
      | some v =>
          cases v with
          | true => exact ih fun j hj => hf j (List.mem_cons_of_mem i hj)
          | false => rfl

theorem optBool_cases {o : Option Bool} (hs : o.isSome = true) :
    o = some true ∨ o = some false := by
  cases o with
  | none => simp at hs
  | some b => cases b with
    | true => exact Or.inl rfl
    | false => exact Or.inr rfl

/-! ## Characterizations of the win-check phases -/

theorem cellD_def (b : Board) (r c : Nat) :
    b.cellD r c = (b.pieces.getD r []).getD c none := rfl

theorem check_win_row_eq_some_true_iff (b : Board) (row : Nat) (p : Piece) :
    b.check_win_row row p = some true ↔
      ∀ c, c < b.width → b.cellD row c = some p := by
  unfold Board.check_win_row
  rw [checkLineIdx_eq_some_true_iff]
  constructor
  · intro h c hc
    rw [cellD_def]
    exact (get2_eq_some_some_iff _ _ _ _).mp (h c (List.mem_range.mpr hc))
  · intro h c hc
    refine (get2_eq_some_some_iff _ _ _ _).mpr ?_
    rw [← cellD_def]
    exact h c (List.mem_range.mp hc)

theorem check_win_row_isSome (b : Board) (hwf : b.WF) {row : Nat}
    (hr : row < b.height) (p : Piece) :
    (b.check_win_row row p).isSome = true := by
  unfold Board.check_win_row
  exact checkLineIdx_isSome _ _ _ fun c hc =>
    get2_isSome b hwf hr (List.mem_range.mp hc)

theorem check_win_col_eq_some_true_iff (b : Board) (col : Nat) (p : Piece) :
    b.check_win_col col p = some true ↔
      ∀ r, r < b.height → b.cellD r col = some p := by
  unfold Board.check_win_col
  rw [checkLineIdx_eq_some_true_iff]
  constructor
  · intro h r hr
    rw [cellD_def]
    exact (get2_eq_some_some_iff _ _ _ _).mp (h r (List.mem_range.mpr hr))
  · intro h r hr
    refine (get2_eq_some_some_iff _ _ _ _).mpr ?_
    rw [← cellD_def]
    exact h r (List.mem_range.mp hr)

theorem check_win_col_isSome (b : Board) (hwf : b.WF) {col : Nat}
    (hc : col < b.width) (p : Piece) :
    (b.check_win_col col p).isSome = true := by
  unfold Board.check_win_col
  exact checkLineIdx_isSome _ _ _ fun r hr =>
    get2_isSome b hwf (List.mem_range.mp hr) hc

theorem check_win_diag_left_eq_some_true_iff (b : Board)
    (hsq : b.height = b.width) (p : Piece) :
    b.check_win_diag_left p = some true ↔
      ∀ i, i < b.height → b.cellD i i = some p := by
  unfold Board.check_win_diag_left
  rw [if_pos hsq, checkLineIdx_eq_some_true_iff]
  constructor
  · intro h i hi
    rw [cellD_def]
    exact (get2_eq_some_some_iff _ _ _ _).mp (h i (List.mem_range.mpr hi))
  · intro h i hi
    refine (get2_eq_some_some_iff _ _ _ _).mpr ?_
    rw [← cellD_def]
    exact h i (List.mem_range.mp hi)

theorem check_win_diag_left_isSome (b : Board) (hwf : b.WF)
    (hsq : b.height = b.width) (p : Piece) :
    (b.check_win_diag_left p).isSome = true := by
  unfold Board.check_win_diag_left
  rw [if_pos hsq]
  exact checkLineIdx_isSome _ _ _ fun i hi =>
    get2_isSome b hwf (List.mem_range.mp hi)
      (by have := List.mem_range.mp hi; omega)

theorem check_win_diag_right_eq_some_true_iff (b : Board)
    (hsq : b.height = b.width) (p : Piece) :
    b.check_win_diag_right p = some true ↔
      ∀ i, i < b.height → b.cellD (b.height - i - 1) i = some p := by
  unfold Board.check_win_diag_right
  rw [if_pos hsq, checkLineIdx_eq_some_true_iff]
  constructor
  · intro h i hi
    rw [cellD_def]
    exact (get2_eq_some_some_iff _ _ _ _).mp (h i (List.mem_range.mpr hi))
  · intro h i hi
    refine (get2_eq_some_some_iff _ _ _ _).mpr ?_
    rw [← cellD_def]
    exact h i (List.mem_range.mp hi)

theorem check_win_diag_right_isSome (b : Board) (hwf : b.WF)
    (hsq : b.height = b.width) (p : Piece) :
    (b.check_win_diag_right p).isSome = true := by
  unfold Board.check_win_diag_right
  rw [if_pos hsq]
  exact checkLineIdx_isSome _ _ _ fun i hi =>
    get2_isSome b hwf (by have := List.mem_range.mp hi; omega)
      (by have := List.mem_range.mp hi; omega)

/-! ## Claim C1 -/

/-- C1: for every well-formed square board (`height = width`) and every
piece `p`, `check_win_condition p` does not panic and returns `true` if and
only if some full row, some full column, the main diagonal, or the
anti-diagonal consists entirely of cells holding `p` (so it returns `false`
for the other piece when only `p` has such a line). -/
theorem c1_check_win_condition_iff_winline (b : Board) (hwf : b.WF)
    (hsq : b.height = b.width) (p : Piece) :
    (b.check_win_condition p).isSome = true ∧
      (b.check_win_condition p = some true ↔ b.spec_hasWinLine p) := by
  have hfrow : ∀ i ∈ List.range b.height,
      ((fun i => b.check_win_row i p) i).isSome = true :=
    fun i hi => check_win_row_isSome b hwf (List.mem_range.mp hi) p
  have hrowiff : anyIdx (fun i => b.check_win_row i p)
      (List.range b.height) = some true ↔
      ∃ r, r < b.height ∧ ∀ c, c < b.width → b.cellD r c = some p := by
    rw [anyIdx_eq_some_true_iff _ _ hfrow]
    constructor
    · rintro ⟨i, hi, h⟩
      exact ⟨i, List.mem_range.mp hi,
        (check_win_row_eq_some_true_iff b i p).mp h⟩
    · rintro ⟨i, hi, h⟩
      exact ⟨i, List.mem_range.mpr hi,
        (check_win_row_eq_some_true_iff b i p).mpr h⟩
  have hrowS := anyIdx_isSome _ _ hfrow
  have hfcol : ∀ j ∈ List.range b.height,
      ((fun j => b.check_win_col j p) j).isSome = true :=
    fun j hj => check_win_col_isSome b hwf
      (by have := List.mem_range.mp hj; omega) p
  have hcoliff : anyIdx (fun j => b.check_win_col j p)
      (List.range b.height) = some true ↔
      ∃ c, c < b.width ∧ ∀ r, r < b.height → b.cellD r c = some p := by
    rw [anyIdx_eq_some_true_iff _ _ hfcol]
    constructor
    · rintro ⟨j, hj, h⟩
      exact ⟨j, by have := List.mem_range.mp hj; omega,
        (check_win_col_eq_some_true_iff b j p).mp h⟩
    · rintro ⟨j, hj, h⟩
      exact ⟨j, List.mem_range.mpr (by omega),
        (check_win_col_eq_some_true_iff b j p).mpr h⟩
  have hcolS := anyIdx_isSome _ _ hfcol
  have hdlS := check_win_diag_left_isSome b hwf hsq p
  have hdrS := check_win_diag_right_isSome b hwf hsq p
  have hdliff := check_win_diag_left_eq_some_true_iff b hsq p
  have hdriff := check_win_diag_right_eq_some_true_iff b hsq p
  unfold Board.check_win_condition
  rcases optBool_cases hrowS with h1 | h1 <;> rw [h1]
  · exact ⟨rfl, ⟨fun _ => Or.inl (hrowiff.mp h1), fun _ => rfl⟩⟩
  · rcases optBool_cases hcolS with h2 | h2 <;> rw [h2]
    · exact ⟨rfl, ⟨fun _ => Or.inr (Or.inl (hcoliff.mp h2)), fun _ => rfl⟩⟩
    · rcases optBool_cases hdlS with h3 | h3 <;> rw [h3]
      · exact ⟨rfl,
          ⟨fun _ => Or.inr (Or.inr (Or.inl (hdliff.mp h3))), fun _ => rfl⟩⟩
      · rcases optBool_cases hdrS with h4 | h4 <;> rw [h4]
        · exact ⟨rfl,
            ⟨fun _ => Or.inr (Or.inr (Or.inr (hdriff.mp h4))), fun _ => rfl⟩⟩
        · refine ⟨rfl, ?_, ?_⟩
          · intro h
            exact absurd (Option.some.inj h) (by simp)
          · intro hspec
            rcases hspec with h | h | h | h
            · have hcontra := h1.symm.trans (hrowiff.mpr h)
              simp at hcontra
            · have hcontra := h2.symm.trans (hcoliff.mpr h)
              simp at hcontra
            · have hcontra := h3.symm.trans (hdliff.mpr h)
              simp at hcontra
            · have hcontra := h4.symm.trans (hdriff.mpr h)
              simp at hcontra

/-- Witness for C1 at a concrete input: a 3-by-3 board whose top row is
full of `X` is recognized as a win for `X`. -/
theorem c1_witness :
    (Board.mk 3 3 [[some Piece.X, some Piece.X, some Piece.X],
      [none, none, none], [none, none, none]]).check_win_condition Piece.X
      = some true :=
  (c1_check_win_condition_iff_winline
    (Board.mk 3 3 [[some Piece.X, some Piece.X, some Piece.X],
      [none, none, none], [none, none, none]])
    (by decide) rfl Piece.X).2.mpr (by decide)

/-! ## Placement lemmas -/

theorem set_oob {α : Type} (l : List α) (i : Nat) (v : α)
    (h : l.length ≤ i) : l.set i v = l := by
  induction l generalizing i with
  | nil => rfl
  | cons a t ih => cases i with
    | zero => simp at h
    | succ m =>
        show a :: t.set m v = a :: t
        rw [ih m (by simpa using h)]

theorem mem_set_cases {α : Type} {l : List α} {n : Nat} {v a : α}
    (h : a ∈ l.set n v) : a ∈ l ∨ a = v := by
  induction l generalizing n with
  | nil => simp at h
  | cons x t ih => cases n with
    | zero =>
        rcases List.mem_cons.mp h with h | h
        · exact Or.inr h
        · exact Or.inl (List.mem_cons_of_mem x h)
    | succ m =>
        rcases List.mem_cons.mp h with h | h
        · exact Or.inl (h ▸ List.mem_cons_self x t)
        · rcases ih h with h | h
          · exact Or.inl (List.mem_cons_of_mem x h)
          · exact Or.inr h

theorem set2_getD_self (g : List (List (Option Piece))) (r c : Nat)
    (v : Option Piece) (hr : r < g.length)
    (hc : c < (g.getD r []).length) :
    ((set2 g r c v).getD r []).getD c none = v := by
  unfold set2
  rw [set_getD_eq g r _ [] hr]
  exact set_getD_eq _ c v none hc

theorem set2_getD_other (g : List (List (Option Piece))) (r c : Nat)
    (v : Option Piece) (r' c' : Nat) (h : r' ≠ r ∨ c' ≠ c) :
    ((set2 g r c v).getD r' []).getD c' none =
      (g.getD r' []).getD c' none := by
  unfold set2
  by_cases hr : r' = r
  · subst hr
    have hc : c' ≠ c := by tauto
    by_cases hrl : r' < g.length
    · rw [set_getD_eq g r' _ [] hrl, set_getD_ne _ c c' v none (by omega)]
    · rw [set_oob g r' _ (by omega)]
  · rw [set_getD_ne g r r' _ [] (by omega)]

theorem get2_eq_some_imp (g : List (List (Option Piece))) (r c : Nat)
    (v : Option Piece) (h : get2 g r c = some v) :
    (g.getD r []).getD c none = v := by
  rw [get2_eq_bind] at h
  obtain ⟨row, hrow, hc⟩ := Option.bind_eq_some.mp h
  have h1 := (get?_eq_some_iff g r row []).mp hrow
  have h2 := (get?_eq_some_iff row c v none).mp hc
  rw [← h1.2] at h2
  exact h2.2

theorem place_some_cases (b b' : Board) (row col : Nat) (t : Piece)
    (res : Bool) (h : b.place row col t = some (b', res)) :
    row < b.height ∧ col < b.width ∧
      ((res = false ∧ b' = b) ∨
        (res = true ∧ b.cellD row col = none ∧
          b' = { b with pieces := set2 b.pieces row col (some t) })) := by
  unfold Board.place at h
  by_cases hr : row < b.height
  · rw [if_pos hr] at h
    by_cases hc : col < b.width
    · rw [if_pos hc] at h
      refine ⟨hr, hc, ?_⟩
      cases hg : get2 b.pieces row col with
      | none =>
          rw [hg] at h
          exact Option.noConfusion h
      | some v =>
          rw [hg] at h
          cases v with
          | some q =>
              have hpair := Option.some.inj h
              exact Or.inl ⟨(congrArg Prod.snd hpair).symm,
                (congrArg Prod.fst hpair).symm⟩
          | none =>
              have hpair := Option.some.inj h
              refine Or.inr ⟨(congrArg Prod.snd hpair).symm, ?_,
                (congrArg Prod.fst hpair).symm⟩
              rw [cellD_def]
              exact get2_eq_some_imp _ _ _ _ hg
    · rw [if_neg hc] at h
      exact Option.noConfusion h
  · rw [if_neg hr] at h
    exact Option.noConfusion h

theorem place_occupied (b : Board) (hwf : b.WF) {row col : Nat}
    (hr : row < b.height) (hc : col < b.width) (q t : Piece)
    (hcell : b.cellD row col = some q) :
    b.place row col t = some (b, false) := by
  unfold Board.place
  rw [if_pos hr, if_pos hc, get2_eq_some_cellD b hwf hr hc, hcell]

theorem place_empty (b : Board) (hwf : b.WF) {row col : Nat}
    (hr : row < b.height) (hc : col < b.width) (t : Piece)
    (hcell : b.cellD row col = none) :
    b.place row col t =
      some ({ b with pieces := set2 b.pieces row col (some t) }, true) := by
  unfold Board.place
  rw [if_pos hr, if_pos hc, get2_eq_some_cellD b hwf hr hc, hcell]

theorem row_getD_mem (b : Board) (hwf : b.WF) {r : Nat} (hr : r < b.height) :
    b.pieces.getD r [] ∈ b.pieces :=
  get?_mem_of_some (get?_eq_some_getD b.pieces r []
    (by have := hwf.1; omega))

theorem row_getD_length (b : Board) (hwf : b.WF) {r : Nat}
    (hr : r < b.height) : (b.pieces.getD r []).length = b.width :=
  hwf.2 _ (row_getD_mem b hwf hr)

theorem place_preserves_WF (b b' : Board) (row col : Nat) (t : Piece)
    (res : Bool) (hwf : b.WF) (h : b.place row col t = some (b', res)) :
    b'.WF := by
  obtain ⟨hr, hc, hcases⟩ := place_some_cases b b' row col t res h
  rcases hcases with ⟨_, rfl⟩ | ⟨_, hcell, rfl⟩
  · exact hwf
  · constructor
    · show (set2 b.pieces row col (some t)).length = b.height
      unfold set2
      rw [List.length_set]
      exact hwf.1
    · intro rowl hmem
      show rowl.length = b.width
      unfold set2 at hmem
      rcases mem_set_cases hmem with hm | hm
      · exact hwf.2 _ hm
      · rw [hm, List.length_set]
        exact row_getD_length b hwf hr

theorem place_preserves_occupied (b b' : Board) (row col : Nat) (t : Piece)
    (res : Bool) (h : b.place row col t = some (b', res)) (r c : Nat)
    (p : Piece) (hcell : b.cellD r c = some p) : b'.cellD r c = some p := by
  obtain ⟨hr, hc, hcases⟩ := place_some_cases b b' row col t res h
  rcases hcases with ⟨_, rfl⟩ | ⟨_, hempty, rfl⟩
  · exact hcell
  · by_cases hrc : r = row ∧ c = col
    · obtain ⟨rfl, rfl⟩ := hrc
      rw [hempty] at hcell
      exact Option.noConfusion hcell
    · rw [cellD_def] at hcell ⊢
      show ((set2 b.pieces row col (some t)).getD r []).getD c none = some p
      rw [set2_getD_other b.pieces row col (some t) r c (by tauto)]
      exact hcell

/-! ## `new` and `is_full` lemmas -/

theorem replicate_getD_lt {α : Type} (n : Nat) (a d : α) (i : Nat)
    (h : i < n) : (List.replicate n a).getD i d = a := by
  induction n generalizing i with
  | zero => omega
  | succ m ih => cases i with
    | zero => rfl
    | succ j => exact ih j (by omega)

theorem new_WF (h w : Nat) : (Board.new h w).WF := by
  constructor
  · simp [Board.new]
  · intro row hmem
    have := List.eq_of_mem_replicate hmem
    rw [this]
    simp [Board.new]

theorem new_cellD (h w : Nat) (r c : Nat) :
    (Board.new h w).cellD r c = none := by
  rw [cellD_def]
  show ((List.replicate h (List.replicate w none)).getD r []).getD c none
    = none
  by_cases hr : r < h
  · rw [replicate_getD_lt h _ [] r hr]
    by_cases hc : c < w
    · rw [replicate_getD_lt w _ none c hc]
    · rw [getD_eq_get?, List.get?_eq_none.mpr (by simpa using hc)]
      rfl
  · have houter :
        (List.replicate h (List.replicate w (none : Option Piece))).getD r []
          = [] := by
      rw [getD_eq_get?, List.get?_eq_none.mpr (by simpa using hr)]
      rfl
    rw [houter, getD_nil]

theorem reachable_WF (b : Board) (h : b.Reachable) : b.WF := by
  induction h with
  | new h w => exact new_WF h w
  | place b0 b1 row col p res hreach hplace ih =>
      exact place_preserves_WF b0 b1 row col p res ih hplace

theorem is_full_eq_some_true_iff (b : Board) (hwf : b.WF) :
    b.is_full = some true ↔
      ∀ r, r < b.height → ∀ c, c < b.width → b.cellD r c ≠ none := by
  unfold Board.is_full
  rw [allIdx_eq_some_true_iff]
  constructor
  · intro h r hr c hc
    have hrow := h r (List.mem_range.mpr hr)
    rw [allIdx_eq_some_true_iff] at hrow
    have hcell := hrow c (List.mem_range.mpr hc)
    rw [get2_eq_some_cellD b hwf hr hc] at hcell
    have hv := Option.some.inj hcell
    intro hnone
    rw [hnone] at hv
    simp at hv
  · intro h r hr
    rw [allIdx_eq_some_true_iff]
    intro c hc
    rw [get2_eq_some_cellD b hwf (List.mem_range.mp hr) (List.mem_range.mp hc)]
    have hne := h r (List.mem_range.mp hr) c (List.mem_range.mp hc)
    show some (b.cellD r c).isSome = some true
    cases hcell : b.cellD r c with
    | none => exact absurd hcell hne
    | some q => rfl

theorem is_full_isSome (b : Board) (hwf : b.WF) :
    (b.is_full).isSome = true := by
  unfold Board.is_full
  apply allIdx_isSome
  intro i hi
  apply allIdx_isSome
  intro j hj
  rw [get2_eq_some_cellD b hwf (List.mem_range.mp hi) (List.mem_range.mp hj)]
  rfl

/-! ## Claims C2 and C4 through C10 -/

/-- C2: for every well-formed board and in-range `(row, col)`: if the cell
is empty, `place` succeeds (returns `true`) and the cell then holds exactly
the placed piece; if the cell holds any piece, `place` returns `false` and
the board (grid included) is unchanged. -/
theorem c2_place_contract (b : Board) (hwf : b.WF) (row col : Nat)
    (hr : row < b.height) (hc : col < b.width) (t : Piece) :
    (b.cellD row col = none →
      ∃ b', b.place row col t = some (b', true) ∧
        b'.cellD row col = some t) ∧
    (∀ q, b.cellD row col = some q → b.place row col t = some (b, false)) := by
  constructor
  · intro hempty
    refine ⟨{ b with pieces := set2 b.pieces row col (some t) },
      place_empty b hwf hr hc t hempty, ?_⟩
    rw [cellD_def]
    show ((set2 b.pieces row col (some t)).getD row []).getD col none
      = some t
    exact set2_getD_self b.pieces row col (some t)
      (by have := hwf.1; omega)
      (by have := row_getD_length b hwf hr; omega)
  · intro q hq
    exact place_occupied b hwf hr hc q t hq

/-- Witness for C2 at a concrete input: placing `O` on the occupied corner
of a 2-by-2 board fails and leaves the board unchanged. -/
theorem c2_witness :
    (Board.mk 2 2 [[some Piece.X, none], [none, none]]).place 0 0 Piece.O
      = some (Board.mk 2 2 [[some Piece.X, none], [none, none]], false) :=
  (c2_place_contract (Board.mk 2 2 [[some Piece.X, none], [none, none]])
    (by decide) 0 0 (by decide) (by decide) Piece.O).2 Piece.X rfl

/-- C4 counterexample: the claim says `check_win_condition(p)` returns
`false` for every piece on the 0-by-0 board, but on `Board::new(0, 0)` the
code returns `true` for `X` (the empty diagonal is vacuously full). -/
theorem c4_counterexample :
    ¬ ((Board.new 0 0).check_win_condition Piece.X = some false) := by
  decide

/-- C4 amended: `Board::new(0, 0)` is trivially full and trivially
*winnable*: `is_full()` returns `true` and `check_win_condition(p)` returns
`true` for every piece `p` (the zero-length diagonal check is vacuously
satisfied). -/
theorem c4_zero_board_full_and_winnable :
    (Board.new 0 0).is_full = some true ∧
      ∀ p : Piece, (Board.new 0 0).check_win_condition p = some true := by
  refine ⟨by decide, ?_⟩
  intro p
  cases p <;> decide

/-- C5: for every board state reachable through the public operations,
`is_full()` returns `true` iff no cell of the grid is empty. -/
theorem c5_is_full_iff_no_empty_cell (b : Board) (hreach : b.Reachable) :
    b.is_full = some true ↔
      ∀ r, r < b.height → ∀ c, c < b.width → b.cellD r c ≠ none :=
  is_full_eq_some_true_iff b (reachable_WF b hreach)

/-- Witness for C5 at a concrete input: the fresh 1-by-1 board is not
full, because its only cell is empty. -/
theorem c5_witness : ¬ ((Board.new 1 1).is_full = some true) :=
  fun hfull =>
    ((c5_is_full_iff_no_empty_cell (Board.new 1 1)
      (Board.Reachable.new 1 1)).mp hfull 0 (by decide) 0 (by decide)) rfl

/-- C6: for all positive `h` and `w`, `Board::new(h, w)` has height `h`,
width `w`, every cell empty, and `is_full()` returns `false`. -/
theorem c6_new_board_empty_not_full (h w : Nat) (hh : 0 < h) (hw : 0 < w) :
    (Board.new h w).height = h ∧ (Board.new h w).width = w ∧
      (∀ r c, (Board.new h w).cellD r c = none) ∧
      (Board.new h w).is_full = some false := by
  refine ⟨rfl, rfl, fun r c => new_cellD h w r c, ?_⟩
  have hwf := new_WF h w
  have hne : ¬ ((Board.new h w).is_full = some true) := by
    intro hfull
    exact ((is_full_eq_some_true_iff _ hwf).mp hfull 0 (by simpa using hh)
      0 (by simpa using hw)) (new_cellD h w 0 0)
  rcases optBool_cases (is_full_isSome _ hwf) with hfull | hfull
  · exact absurd hfull hne
  · exact hfull

/-- Witness for C6 at a concrete input: the fresh 3-by-3 board is not
full. -/
theorem c6_witness : (Board.new 3 3).is_full = some false :=
  (c6_new_board_empty_not_full 3 3 (by decide) (by decide)).2.2.2

/-- C7: calling `place` with `row >= height` or `col >= width` hits a fatal
assertion (modelled as `none`); under the precondition both assertions pass
and, on a well-formed board, no out-of-bounds access occurs, so `place`
returns normally (`isSome`). -/
theorem c7_place_precondition (b : Board) (hwf : b.WF) (row col : Nat)
    (t : Piece) :
    ((b.height ≤ row ∨ b.width ≤ col) → b.place row col t = none) ∧
      (row < b.height → col < b.width →
        (b.place row col t).isSome = true) := by
  constructor
  · intro h
    unfold Board.place
    rcases h with h | h
    · rw [if_neg (by omega)]
    · by_cases hr : row < b.height
      · rw [if_pos hr, if_neg (by omega)]
      · rw [if_neg hr]
  · intro hr hc
    cases hcell : b.cellD row col with
    | none => rw [place_empty b hwf hr hc t hcell]; rfl
    | some q => rw [place_occupied b hwf hr hc q t hcell]; rfl

/-- Witness for C7 at a concrete input: placing at row 5 on a 2-by-2 board
panics. -/
theorem c7_witness : (Board.new 2 2).place 5 0 Piece.X = none :=
  (c7_place_precondition (Board.new 2 2) (by decide) 5 0 Piece.X).1
    (Or.inl (by decide))

/-- C8: once a cell holds a piece `p`, it still holds `p` after any
sequence of `place` calls (the queries `check_win_condition` and `is_full`
take the board immutably, so `place` steps are the only mutations). -/
theorem c8_occupied_cell_persists (b b' : Board) (hsteps : b.Steps b')
    (r c : Nat) (p : Piece) (hcell : b.cellD r c = some p) :
    b'.cellD r c = some p := by
  induction hsteps with
  | refl b0 => exact hcell
  | place b0 b1 b2 row col q res hplace hrest ih =>
      exact ih (place_preserves_occupied b0 b1 row col q res hplace r c p
        hcell)

/-- Witness for C8 at a concrete input: after placing `X` at (0,0) and then
`O` at (1,1) on a 2-by-2 board, (0,0) still holds `X`. -/
theorem c8_witness :
    (Board.mk 2 2 [[some Piece.X, none], [none, some Piece.O]]).cellD 0 0
      = some Piece.X :=
  c8_occupied_cell_persists
    (Board.mk 2 2 [[some Piece.X, none], [none, none]])
    (Board.mk 2 2 [[some Piece.X, none], [none, some Piece.O]])
    (Board.Steps.place _
      (Board.mk 2 2 [[some Piece.X, none], [none, some Piece.O]]) _ 1 1
      Piece.O true (by decide)
      (Board.Steps.refl _))
    0 0 Piece.X rfl

/-- C9: a successful `place` call (whether it returns `true` or `false`)
leaves the height, the width, and every cell other than `(row, col)`
unchanged. -/
theorem c9_place_frame (b b' : Board) (row col : Nat) (t : Piece)
    (res : Bool) (h : b.place row col t = some (b', res)) :
    b'.height = b.height ∧ b'.width = b.width ∧
      ∀ r c, (r ≠ row ∨ c ≠ col) → b'.cellD r c = b.cellD r c := by
  obtain ⟨hr, hc, hcases⟩ := place_some_cases b b' row col t res h
  rcases hcases with ⟨_, rfl⟩ | ⟨_, hcell, rfl⟩
  · exact ⟨rfl, rfl, fun _ _ _ => rfl⟩
  · refine ⟨rfl, rfl, ?_⟩
    intro r c hne
    rw [cellD_def, cellD_def]
    show ((set2 b.pieces row col (some t)).getD r []).getD c none
      = (b.pieces.getD r []).getD c none
    exact set2_getD_other b.pieces row col (some t) r c hne

/-- Witness for C9 at a concrete input: placing `O` at (1,1) on a 2-by-2
board that holds `X` at (0,0) leaves (0,0) unchanged. -/
theorem c9_witness :
    (Board.mk 2 2 [[some Piece.X, none], [none, some Piece.O]]).cellD 0 0
      = (Board.mk 2 2 [[some Piece.X, none], [none, none]]).cellD 0 0 :=
  (c9_place_frame (Board.mk 2 2 [[some Piece.X, none], [none, none]])
    (Board.mk 2 2 [[some Piece.X, none], [none, some Piece.O]])
    1 1 Piece.O true (by decide)).2.2 0 0 (Or.inl (by decide))

/-- C10: on a 1-by-1 board the first placement wins: after a successful
`place(0, 0, p)`, `check_win_condition(p)` returns `true`. -/
theorem c10_first_move_wins_on_1x1 (p : Piece) :
    ∃ b', (Board.new 1 1).place 0 0 p = some (b', true) ∧
      b'.check_win_condition p = some true := by
  cases p
  · exact ⟨Board.mk 1 1 [[some Piece.X]], by decide, by decide⟩
  · exact ⟨Board.mk 1 1 [[some Piece.O]], by decide, by decide⟩

/-! ## Claim C3: the column phase of `check_win_condition` -/

/-- C3: the claim says the column phase of `check_win_condition` examines
every column `0..width` and only the diagonal checks require a square
board.  In the code the column loop runs over `0..height` instead: on a
2-by-3 board whose column 2 is entirely `X` (reached by two `place`
calls), `check_win_col 2` itself reports a win, yet `check_win_condition`
never examines column 2 and panics (`none`); on an empty 3-by-2 board the
column phase indexes column 2 out of bounds and panics by itself. -/
theorem c3_column_phase_uses_height :
    (Board.new 2 3).place 0 2 Piece.X
        = some (Board.mk 2 3 [[none, none, some Piece.X],
            [none, none, none]], true) ∧
      (Board.mk 2 3 [[none, none, some Piece.X],
          [none, none, none]]).place 1 2 Piece.X
        = some (Board.mk 2 3 [[none, none, some Piece.X],
            [none, none, some Piece.X]], true) ∧
      (Board.mk 2 3 [[none, none, some Piece.X],
          [none, none, some Piece.X]]).check_win_col 2 Piece.X = some true ∧
      (Board.mk 2 3 [[none, none, some Piece.X],
          [none, none, some Piece.X]]).check_win_condition Piece.X = none ∧
      (Board.new 3 2).check_win_condition Piece.X = none := by
  refine ⟨by decide, by decide, by decide, by decide, by decide⟩

